import Mathlib

/-!
A verification development for the `histo` stream-histogram tool
(`main.go`).  The Go program keeps its state in a single `model` struct;
the functions below are direct translations of the functions of
`main.go` that handle data, filtering, ranking and navigation.

Modelling conventions:
* Go `map`s are modelled as association lists (`List (κ × α)`).  The
  list order models Go's unspecified map iteration order: the same
  abstract map may be represented by any permutation of its entries, so
  a property of the program that depends on iteration order must hold
  for every list order to count as deterministic.
* Go `float64` observations are modelled as exact rationals `ℚ`;
  `strconv.ParseFloat` is abstracted as a parameter
  `pf : String → Option ℚ` (success or failure plus the parsed value).
* Go's `int` is modelled as `ℤ` where a value can go negative and as
  `ℕ` where it is an index known to be non-negative; `int(x)` float
  truncation is truncation toward zero on `ℚ`.
* `sort.Slice(keys, less)` produces a permutation of `keys` that is
  sorted so that no later element is `less` than an earlier one; it is
  modelled by `List.insertionSort` with the total order
  `fun a b => ¬ less b a`.
-/

namespace Histo

/-- Go map read `m[k]` (found / not-found), on an association list. -/
def alGet {κ α : Type} [DecidableEq κ] (k : κ) : List (κ × α) → Option α
  | [] => none
  | (k', v) :: rest => if k = k' then some v else alGet k rest

/-- Go map write `m[k] = v`: replace in place if present, else append. -/
def alSet {κ α : Type} [DecidableEq κ] (k : κ) (v : α) : List (κ × α) → List (κ × α)
  | [] => [(k, v)]
  | (k', v') :: rest => if k = k' then (k, v) :: rest else (k', v') :: alSet k v rest

/-- Go map `delete(m, k)`. -/
def alRemove {κ α : Type} [DecidableEq κ] (k : κ) : List (κ × α) → List (κ × α)
  | [] => []
  | (k', v') :: rest => if k = k' then alRemove k rest else (k', v') :: alRemove k rest

/-- One facet column: facet value → recorded samples (`map[string][]float64`). -/
abbrev FacetMap := List (String × List ℚ)

/-- Facet column index → facet map (`map[int]map[string][]float64`). -/
abbrev FacetTable := List (ℕ × FacetMap)

/-- `computeMean` of `main.go`: 0 for an empty slice, else sum / length. -/
def computeMean (values : List ℚ) : ℚ :=
  if values.length = 0 then 0 else values.sum / values.length

/-- The mean of the samples stored under key `k` (a missing key reads as
the empty slice, as a Go map read of a missing key yields `nil`). -/
def meanOf (facetData : FacetMap) (k : String) : ℚ :=
  computeMean ((alGet k facetData).getD [])

/-- The comparator passed to `sort.Slice` in `getSortedFacetKeys`:
descending mean, ties broken by ascending key. -/
def keyLess (facetData : FacetMap) (a b : String) : Prop :=
  meanOf facetData a > meanOf facetData b ∨
    (meanOf facetData a = meanOf facetData b ∧ a < b)

instance keyLessDec (facetData : FacetMap) : DecidableRel (keyLess facetData) :=
  fun _ _ => by unfold keyLess; infer_instance

/-- The total order induced by the comparator: `a` may come before `b`
iff `b` is not strictly less than `a`. -/
def keyOrder (facetData : FacetMap) (a b : String) : Prop :=
  ¬ keyLess facetData b a

instance keyOrderDec (facetData : FacetMap) : DecidableRel (keyOrder facetData) :=
  fun _ _ => by unfold keyOrder; infer_instance

theorem keyOrder_iff (facetData : FacetMap) (a b : String) :
    keyOrder facetData a b ↔
      meanOf facetData a > meanOf facetData b ∨
        (meanOf facetData a = meanOf facetData b ∧ a ≤ b) := by
  unfold keyOrder keyLess
  constructor
  · intro h
    rcases lt_trichotomy (meanOf facetData a) (meanOf facetData b) with hlt | heq | hgt
    · exact absurd (Or.inl hlt) h
    · refine Or.inr ⟨heq, ?_⟩
      by_contra hab
      exact h (Or.inr ⟨heq.symm, lt_of_not_le hab⟩)
    · exact Or.inl hgt
  · rintro (hgt | ⟨heq, hab⟩) (hlt | ⟨heq', hba⟩)
    · exact absurd (hlt.trans hgt) (lt_irrefl _)
    · exact absurd hgt (by rw [heq']; exact lt_irrefl _)
    · exact absurd hlt (by rw [heq]; exact lt_irrefl _)
    · exact absurd (lt_of_le_of_lt hab hba) (lt_irrefl _)

instance keyOrderTotal (facetData : FacetMap) : IsTotal String (keyOrder facetData) := by
  constructor
  intro a b
  rw [keyOrder_iff, keyOrder_iff]
  rcases lt_trichotomy (meanOf facetData a) (meanOf facetData b) with hlt | heq | hgt
  · exact Or.inr (Or.inl hlt)
  · rcases le_total a b with hab | hba
    · exact Or.inl (Or.inr ⟨heq, hab⟩)
    · exact Or.inr (Or.inr ⟨heq.symm, hba⟩)
  · exact Or.inl (Or.inl hgt)

instance keyOrderTrans (facetData : FacetMap) : IsTrans String (keyOrder facetData) := by
  constructor
  intro a b c hab hbc
  rw [keyOrder_iff] at hab hbc ⊢
  rcases hab with hab | ⟨hab, sab⟩ <;> rcases hbc with hbc | ⟨hbc, sbc⟩
  · exact Or.inl (hbc.trans hab)
  · exact Or.inl (hbc ▸ hab)
  · exact Or.inl (hab ▸ hbc)
  · exact Or.inr ⟨hab.trans hbc, sab.trans sbc⟩

instance keyOrderAntisymm (facetData : FacetMap) : IsAntisymm String (keyOrder facetData) := by
  constructor
  intro a b hab hba
  rw [keyOrder_iff] at hab hba
  rcases hab with hab | ⟨hab, sab⟩ <;> rcases hba with hba | ⟨hba, sba⟩
  · exact absurd (hab.trans hba) (lt_irrefl _)
  · exact absurd hab (by rw [hba]; exact lt_irrefl _)
  · exact absurd hba (by rw [hab]; exact lt_irrefl _)
  · exact le_antisymm sab sba

/-- `getSortedFacetKeys` of `main.go`: the keys of a facet map sorted by
descending mean, ties broken by ascending key name. -/
def getSortedFacetKeys (facetData : FacetMap) : List String :=
  List.insertionSort (keyOrder facetData) (facetData.map Prod.fst)

/-- Reading a Go map does not depend on the iteration order in which its
entries are listed (association lists with distinct keys). -/
theorem alGet_perm {κ α : Type} [DecidableEq κ] {l l' : List (κ × α)}
    (hp : l.Perm l') (hnd : (l.map Prod.fst).Nodup) (k : κ) :
    alGet k l = alGet k l' := by
  induction hp with
  | nil => rfl
  | cons x _ ih =>
    simp only [List.map_cons, List.nodup_cons] at hnd
    simp only [alGet]
    split
    · rfl
    · exact ih hnd.2
  | swap x y t =>
    simp only [List.map_cons, List.nodup_cons, List.mem_cons] at hnd
    have hxy : y.1 ≠ x.1 := fun h => hnd.1 (Or.inl h)
    by_cases h1 : k = y.1 <;> by_cases h2 : k = x.1
    · exact absurd (h1 ▸ h2) hxy
    · simp [alGet, h1, h2, hxy, Ne.symm hxy]
    · simp [alGet, h1, h2, hxy, Ne.symm hxy]
    · simp [alGet, h1, h2, hxy, Ne.symm hxy]
  | trans h₁ _ ih₁ ih₂ =>
    have hnd₂ := ((h₁.map Prod.fst).nodup_iff).mp hnd
    exact (ih₁ hnd).trans (ih₂ hnd₂)

theorem meanOf_perm {fd fd' : FacetMap} (hp : fd.Perm fd')
    (hnd : (fd.map Prod.fst).Nodup) (k : String) :
    meanOf fd k = meanOf fd' k := by
  unfold meanOf
  rw [alGet_perm hp hnd k]

theorem keyOrder_congr {fd fd' : FacetMap}
    (h : ∀ k, meanOf fd k = meanOf fd' k) {a b : String} :
    keyOrder fd' a b → keyOrder fd a b := by
  rw [keyOrder_iff, keyOrder_iff, h a, h b]
  exact id

/-- The ranked key sequence does not depend on the map's iteration
order. -/
theorem getSortedFacetKeys_perm {fd fd' : FacetMap} (hp : fd.Perm fd')
    (hnd : (fd.map Prod.fst).Nodup) :
    getSortedFacetKeys fd = getSortedFacetKeys fd' := by
  unfold getSortedFacetKeys
  refine List.eq_of_perm_of_sorted (r := keyOrder fd) ?_ ?_ ?_
  · exact (List.perm_insertionSort _ _).trans
      ((hp.map Prod.fst).trans (List.perm_insertionSort _ _).symm)
  · exact List.sorted_insertionSort _ _
  · exact (List.sorted_insertionSort _ _).imp
      (keyOrder_congr (meanOf_perm hp hnd))

/-- C2: `getSortedFacetKeys` is a deterministic total order on the keys:
a key with strictly greater mean precedes one with smaller mean, equal
means are ordered by ascending key name, and the output is independent
of the map's iteration order (so repeated calls on unmutated data agree,
even across rehashings of the underlying Go map). -/
theorem rankedKeys_total_order (fd : FacetMap) (hnd : (fd.map Prod.fst).Nodup) :
    (∀ i j : Fin (getSortedFacetKeys fd).length,
        (meanOf fd ((getSortedFacetKeys fd).get i) >
            meanOf fd ((getSortedFacetKeys fd).get j) → i < j) ∧
        (meanOf fd ((getSortedFacetKeys fd).get i) =
            meanOf fd ((getSortedFacetKeys fd).get j) →
          (getSortedFacetKeys fd).get i < (getSortedFacetKeys fd).get j → i < j)) ∧
      ∀ fd' : FacetMap, fd.Perm fd' →
        getSortedFacetKeys fd = getSortedFacetKeys fd' := by
  have hsorted : (getSortedFacetKeys fd).Sorted (keyOrder fd) :=
    List.sorted_insertionSort _ _
  refine ⟨fun i j => ⟨?_, ?_⟩, fun fd' hp => getSortedFacetKeys_perm hp hnd⟩
  · intro hgt
    rcases lt_trichotomy i j with hij | hij | hij
    · exact hij
    · exact absurd hgt (by rw [hij]; exact lt_irrefl _)
    · have hord := hsorted.rel_get_of_lt hij
      rw [keyOrder_iff] at hord
      rcases hord with hord | ⟨hord, _⟩
      · exact absurd (hgt.trans hord) (lt_irrefl _)
      · exact absurd hgt (by rw [hord]; exact lt_irrefl _)
  · intro heq hlt
    rcases lt_trichotomy i j with hij | hij | hij
    · exact hij
    · exact absurd hlt (by rw [hij]; exact lt_irrefl _)
    · have hord := hsorted.rel_get_of_lt hij
      rw [keyOrder_iff] at hord
      rcases hord with hord | ⟨_, hord⟩
      · exact absurd hord (by rw [heq]; exact lt_irrefl _)
      · exact absurd (lt_of_lt_of_le hlt hord) (lt_irrefl _)

/-- Witness for `rankedKeys_total_order` on a concrete two-key map. -/
theorem rankedKeys_total_order_witness :
    (((([("a", [(1 : ℚ)]), ("b", [2, 4])]) : FacetMap).map Prod.fst).Nodup) ∧
      ((∀ i j : Fin (getSortedFacetKeys [("a", [(1 : ℚ)]), ("b", [2, 4])]).length,
          (meanOf [("a", [(1 : ℚ)]), ("b", [2, 4])]
              ((getSortedFacetKeys [("a", [(1 : ℚ)]), ("b", [2, 4])]).get i) >
            meanOf [("a", [(1 : ℚ)]), ("b", [2, 4])]
              ((getSortedFacetKeys [("a", [(1 : ℚ)]), ("b", [2, 4])]).get j) → i < j) ∧
          (meanOf [("a", [(1 : ℚ)]), ("b", [2, 4])]
              ((getSortedFacetKeys [("a", [(1 : ℚ)]), ("b", [2, 4])]).get i) =
            meanOf [("a", [(1 : ℚ)]), ("b", [2, 4])]
              ((getSortedFacetKeys [("a", [(1 : ℚ)]), ("b", [2, 4])]).get j) →
            (getSortedFacetKeys [("a", [(1 : ℚ)]), ("b", [2, 4])]).get i <
              (getSortedFacetKeys [("a", [(1 : ℚ)]), ("b", [2, 4])]).get j → i < j)) ∧
        ∀ fd' : FacetMap, List.Perm [("a", [(1 : ℚ)]), ("b", [2, 4])] fd' →
          getSortedFacetKeys [("a", [(1 : ℚ)]), ("b", [2, 4])] = getSortedFacetKeys fd') :=
  ⟨by decide, rankedKeys_total_order _ (by decide)⟩

/-- The pin-filter loop of `processLineWithFilter` (`main.go`): iterate
the pinned values; an inactive entry is skipped; an active pin whose
bound column (0 when no binding is recorded, as a Go map read of a
missing key) is in range must match the record's field there, an
out-of-range bound column is skipped. -/
def checkPins (pinnedFacetsColumn : List (String × ℕ)) (parts : List String) :
    List (String × Bool) → Bool
  | [] => true
  | (pinnedValue, isActive) :: rest =>
    if !isActive then checkPins pinnedFacetsColumn parts rest
    else
      let pinnedCol := (alGet pinnedValue pinnedFacetsColumn).getD 0
      if pinnedCol < parts.length then
        if parts.getD pinnedCol "" ≠ pinnedValue then false
        else checkPins pinnedFacetsColumn parts rest
      else checkPins pinnedFacetsColumn parts rest

/-- C1: a record passes the pin filter iff every active pinned value
whose bound column index is within the record's field range matches the
record's field at that index; an out-of-range pin never vetoes. -/
theorem pin_filter_iff (pcol : List (String × ℕ)) (parts : List String)
    (pins : List (String × Bool)) :
    checkPins pcol parts pins = true ↔
      ∀ p ∈ pins, p.2 = true →
        (alGet p.1 pcol).getD 0 < parts.length →
          parts.getD ((alGet p.1 pcol).getD 0) "" = p.1 := by
  induction pins with
  | nil => simp [checkPins]
  | cons hd tl ih =>
    obtain ⟨v, act⟩ := hd
    cases act with
    | false =>
      simp only [checkPins, Bool.not_false, if_true]
      rw [ih]
      simp
    | true =>
      simp only [checkPins, Bool.not_true, Bool.false_eq_true, if_false]
      by_cases hc : (alGet v pcol).getD 0 < parts.length
      · by_cases hv : parts.getD ((alGet v pcol).getD 0) "" = v
        · simp only [hc, if_true, hv, ne_eq, not_true_eq_false, if_false]
          rw [ih]
          constructor
          · intro h p hp hact hlt
            rcases List.mem_cons.mp hp with rfl | hp
            · exact hv
            · exact h p hp hact hlt
          · intro h p hp hact hlt
            exact h p (List.mem_cons_of_mem _ hp) hact hlt
        · simp only [hc, if_true, hv, ne_eq, not_false_eq_true, if_true]
          constructor
          · intro h
            exact absurd h (by simp)
          · intro h
            exact absurd (h (v, true) (by simp) rfl hc) hv
      · simp only [hc, if_false]
        rw [ih]
        constructor
        · intro h
          intro p hp hact hlt
          rcases List.mem_cons.mp hp with rfl | hp
          · exact absurd hlt hc
          · exact h p hp hact hlt
        · intro h p hp hact hlt
          exact h p (List.mem_cons_of_mem _ hp) hact hlt

/-- Go's `int(x)` conversion of a float: truncation toward zero. -/
def truncQ (q : ℚ) : ℤ := if q < 0 then ⌈q⌉ else ⌊q⌋

/-- The bin index computed in `createVerticalHistogram` (`main.go`):
`idx := int((v - gmin) / binSize)` with `binSize = (gmax-gmin)/binCount`,
clamped to the last bin when `idx >= binCount`. -/
def bucketIdx (gmin gmax : ℚ) (binCount : ℕ) (v : ℚ) : ℤ :=
  if (binCount : ℤ) ≤ truncQ ((v - gmin) / ((gmax - gmin) / (binCount : ℚ))) then
    (binCount : ℤ) - 1
  else truncQ ((v - gmin) / ((gmax - gmin) / (binCount : ℚ)))

/-- `bins[idx]++` with Go's bounds check: an out-of-range index is a
run-time panic, modelled as `none`. -/
def incrAt (bins : List ℕ) (i : ℤ) : Option (List ℕ) :=
  if 0 ≤ i ∧ i.toNat < bins.length then
    some (bins.set i.toNat (bins.getD i.toNat 0 + 1))
  else none

/-- The bin-filling loop of `createVerticalHistogram` (the spec's
`bucketize`): `binCount` bins starting at zero, one increment per
sample. -/
def bucketize (values : List ℚ) (gmin gmax : ℚ) (binCount : ℕ) : Option (List ℕ) :=
  values.foldlM (fun bins v => incrAt bins (bucketIdx gmin gmax binCount v))
    (List.replicate binCount 0)

theorem sum_set_succ (l : List ℕ) (i : ℕ) (h : i < l.length) :
    (l.set i (l.getD i 0 + 1)).sum = l.sum + 1 := by
  induction l generalizing i with
  | nil => cases h
  | cons hd tl ih =>
    cases i with
    | zero => simp [List.getD]; omega
    | succ n =>
      have hn : n < tl.length := by simpa using h
      simp only [List.set, List.getD_cons_succ, List.sum_cons]
      rw [ih n hn]
      omega

theorem bucketIdx_nonneg_lt (gmin gmax : ℚ) (K : ℕ) (v : ℚ)
    (hK : 1 ≤ K) (hrange : gmin < gmax) (hlo : gmin ≤ v) (hhi : v ≤ gmax) :
    0 ≤ bucketIdx gmin gmax K v ∧ bucketIdx gmin gmax K v < (K : ℤ) := by
  have hKQ : (0 : ℚ) < (K : ℚ) := by exact_mod_cast hK
  have hsub : (0 : ℚ) < gmax - gmin := sub_pos.mpr hrange
  have hbin : (0 : ℚ) < (gmax - gmin) / (K : ℚ) := div_pos hsub hKQ
  have hq0 : (0 : ℚ) ≤ (v - gmin) / ((gmax - gmin) / (K : ℚ)) :=
    div_nonneg (sub_nonneg.mpr hlo) (le_of_lt hbin)
  have hqK : (v - gmin) / ((gmax - gmin) / (K : ℚ)) ≤ (K : ℚ) := by
    rw [div_le_iff₀ hbin]
    calc v - gmin ≤ gmax - gmin := by linarith
    _ = (K : ℚ) * ((gmax - gmin) / (K : ℚ)) := by field_simp
  have htr : truncQ ((v - gmin) / ((gmax - gmin) / (K : ℚ))) =
      ⌊(v - gmin) / ((gmax - gmin) / (K : ℚ))⌋ := by
    unfold truncQ
    rw [if_neg (not_lt.mpr hq0)]
  have h0 : (0 : ℤ) ≤ ⌊(v - gmin) / ((gmax - gmin) / (K : ℚ))⌋ :=
    Int.floor_nonneg.mpr hq0
  have hup : ⌊(v - gmin) / ((gmax - gmin) / (K : ℚ))⌋ ≤ (K : ℤ) := by
    have h := Int.floor_le_floor hqK
    simpa using h
  unfold bucketIdx
  rw [htr]
  by_cases hcl : (K : ℤ) ≤ ⌊(v - gmin) / ((gmax - gmin) / (K : ℚ))⌋
  · rw [if_pos hcl]
    omega
  · rw [if_neg hcl]
    exact ⟨h0, lt_of_not_le hcl⟩

theorem bucketIdx_at_max (gmin gmax : ℚ) (K : ℕ)
    (hK : 1 ≤ K) (hrange : gmin < gmax) :
    bucketIdx gmin gmax K gmax = (K : ℤ) - 1 := by
  have hKQ : (0 : ℚ) < (K : ℚ) := by exact_mod_cast hK
  have hsub : (0 : ℚ) < gmax - gmin := sub_pos.mpr hrange
  have hq : (gmax - gmin) / ((gmax - gmin) / (K : ℚ)) = (K : ℚ) := by
    field_simp
  have htr : truncQ ((K : ℚ)) = (K : ℤ) := by
    unfold truncQ
    rw [if_neg (not_lt.mpr (le_of_lt hKQ)), Int.floor_natCast]
  unfold bucketIdx
  rw [hq, htr, if_pos (le_refl _)]

theorem bucketize_loop_sum (gmin gmax : ℚ) (K : ℕ)
    (values : List ℚ) (bins : List ℕ) (hlen : bins.length = K)
    (hidx : ∀ v ∈ values, 0 ≤ bucketIdx gmin gmax K v ∧
        bucketIdx gmin gmax K v < (K : ℤ)) :
    ∃ out, values.foldlM (fun b v => incrAt b (bucketIdx gmin gmax K v)) bins =
        some out ∧ out.length = K ∧ out.sum = bins.sum + values.length := by
  induction values generalizing bins with
  | nil => exact ⟨bins, rfl, hlen, by simp⟩
  | cons v vs ih =>
    obtain ⟨h0, hKv⟩ := hidx v (List.mem_cons_self _ _)
    have hin : (bucketIdx gmin gmax K v).toNat < bins.length := by
      rw [hlen]
      omega
    have hstep : incrAt bins (bucketIdx gmin gmax K v) =
        some (bins.set (bucketIdx gmin gmax K v).toNat
          (bins.getD (bucketIdx gmin gmax K v).toNat 0 + 1)) := by
      unfold incrAt
      rw [if_pos ⟨h0, hin⟩]
    obtain ⟨out, hfold, hl, hs⟩ := ih
      (bins.set (bucketIdx gmin gmax K v).toNat
        (bins.getD (bucketIdx gmin gmax K v).toNat 0 + 1))
      (by simpa using hlen)
      (fun w hw => hidx w (List.mem_cons_of_mem _ hw))
    refine ⟨out, ?_, hl, ?_⟩
    · simpa [List.foldlM, hstep] using hfold
    · rw [hs, sum_set_succ bins _ hin]
      simp only [List.length_cons]
      omega

/-- C4: with all samples in `[gmin, gmax]`, `gmin < gmax` and at least
one bucket, every sample gets a bucket index in `[0, binCount-1]`, a
sample exactly at `gmax` is clamped into the last bucket, and the bucket
counts sum to the number of samples. -/
theorem bucket_conservation (values : List ℚ) (gmin gmax : ℚ) (K : ℕ)
    (hK : 1 ≤ K) (hrange : gmin < gmax)
    (hv : ∀ v ∈ values, gmin ≤ v ∧ v ≤ gmax) :
    (∀ v ∈ values, 0 ≤ bucketIdx gmin gmax K v ∧
        bucketIdx gmin gmax K v < (K : ℤ)) ∧
      bucketIdx gmin gmax K gmax = (K : ℤ) - 1 ∧
      ∃ bins, bucketize values gmin gmax K = some bins ∧
        bins.length = K ∧ bins.sum = values.length := by
  have hidx : ∀ v ∈ values, 0 ≤ bucketIdx gmin gmax K v ∧
      bucketIdx gmin gmax K v < (K : ℤ) := fun v hw =>
    bucketIdx_nonneg_lt gmin gmax K v hK hrange (hv v hw).1 (hv v hw).2
  refine ⟨hidx, bucketIdx_at_max gmin gmax K hK hrange, ?_⟩
  obtain ⟨out, hfold, hl, hs⟩ :=
    bucketize_loop_sum gmin gmax K values (List.replicate K 0) (by simp) hidx
  exact ⟨out, hfold, hl, by simpa using hs⟩

/-- Witness for `bucket_conservation`: samples `[0, 1, 2]` on `[0, 2]`
with two buckets. -/
theorem bucket_conservation_witness :
    ((1 ≤ 2) ∧ (0 : ℚ) < 2 ∧ ∀ v ∈ [(0 : ℚ), 1, 2], (0 : ℚ) ≤ v ∧ v ≤ 2) ∧
      ((∀ v ∈ [(0 : ℚ), 1, 2], 0 ≤ bucketIdx 0 2 2 v ∧
          bucketIdx 0 2 2 v < (2 : ℤ)) ∧
        bucketIdx 0 2 2 2 = (2 : ℤ) - 1 ∧
        ∃ bins, bucketize [(0 : ℚ), 1, 2] 0 2 2 = some bins ∧
          bins.length = 2 ∧ bins.sum = ([(0 : ℚ), 1, 2]).length) :=
  ⟨⟨by decide, by norm_num, by decide⟩,
    bucket_conservation [(0 : ℚ), 1, 2] 0 2 2 (by decide) (by norm_num) (by decide)⟩

/-- The engine-state fields of `main.go`'s `model` struct.  Rendering
and timing fields (`startTime`, `stats`, `countStrings`, the input
channel, `gridRows`, the lipgloss styles) do not influence the data,
filtering, ranking or navigation logic and are omitted. -/
structure Model where
  facetsData : FacetTable
  storedLines : List String
  totalLogCount : ℕ
  facet : ℤ
  scrollOffset : ℤ
  winWidth : ℤ
  winHeight : ℤ
  stringValues : List (String × ℕ)
  activeFacet : String
  activeFacetPos : ℤ × ℤ
  facetPositions : List (String × (ℤ × ℤ))
  gridColumns : ℤ
  pinnedFacets : List (String × Bool)
  pinnedFacetsColumn : List (String × ℕ)
  filteredData : FacetTable
  isFiltered : Bool

/-- The data-source selection repeated throughout `main.go`:
`dataSource := m.facetsData; if m.isFiltered { dataSource = m.filteredData }`. -/
def dataSource (m : Model) : FacetTable :=
  if m.isFiltered then m.filteredData else m.facetsData

/-- `dataSource[f]` with a Go `int` index: facet-table columns are the
positive ints produced by ingestion, so a negative index never hits. -/
def ftGet (facet : ℤ) (t : FacetTable) : Option FacetMap :=
  if 0 ≤ facet then alGet facet.toNat t else none

/-- `targetData[index][facet] = append(targetData[index][facet], value)`
together with the `nil`-map initialisation that precedes it. -/
def ftAppend (t : FacetTable) (col : ℕ) (facet : String) (v : ℚ) : FacetTable :=
  alSet col
    (alSet facet (((alGet facet ((alGet col t).getD [])).getD []) ++ [v])
      ((alGet col t).getD []))
    t

/-- `for i, facet := range parts[1:]` of `processLineWithFilter`: append
the observation under every (1-indexed column, facet value) pair. -/
def applyFacets (t : FacetTable) (facets : List String) (v : ℚ) : FacetTable :=
  (facets.enum).foldl (fun acc iv => ftAppend acc (iv.1 + 1) iv.2 v) t

/-- `m.stringValues[parts[0]]++`. -/
def bumpString (sv : List (String × ℕ)) (s : String) : List (String × ℕ) :=
  alSet s ((alGet s sv).getD 0 + 1) sv

/-- ASCII whitespace as recognised by Go's `strings.TrimSpace`. -/
def isSpaceChar (c : Char) : Bool :=
  c = ' ' || c = '\t' || c = '\n' || c = '\x0d' || c = '\x0b' || c = '\x0c'

/-- Go's `strings.TrimSpace` (on ASCII input): drop leading and
trailing whitespace characters. -/
def trimSpace (s : String) : String :=
  ⟨(((s.data.dropWhile isSpaceChar).reverse.dropWhile isSpaceChar).reverse)⟩

/-- Go's `strings.Split(line, "\t")`: the substrings between tabs; the
result always has at least one element. -/
def splitTabAux (cur : List Char) : List Char → List String
  | [] => [⟨cur.reverse⟩]
  | c :: rest =>
    if c = '\t' then ⟨cur.reverse⟩ :: splitTabAux [] rest
    else splitTabAux (c :: cur) rest

def splitTab (s : String) : List String := splitTabAux [] s.data

/-- The body of `processLineWithFilter` (`main.go`) after the
empty-line return: pin check, parse, then update the target table. -/
def processParts (pf : String → Option ℚ) (m : Model) (applyFilter : Bool) :
    List String → Model
  | [] => m
  | p0 :: rest =>
    if applyFilter && !m.pinnedFacets.isEmpty &&
        !(checkPins m.pinnedFacetsColumn (p0 :: rest) m.pinnedFacets) then m
    else
      match pf p0 with
      | none =>
        if !applyFilter then
          { m with stringValues := bumpString m.stringValues p0,
                   totalLogCount := m.totalLogCount + 1 }
        else m
      | some value =>
        if applyFilter then
          { m with filteredData := applyFacets m.filteredData rest value }
        else
          { m with totalLogCount := m.totalLogCount + 1,
                   facetsData := applyFacets m.facetsData rest value }

/-- `processLineWithFilter` of `main.go`: trim, drop empty lines, split
on tabs and process.  `strconv.ParseFloat` is abstracted as `pf`. -/
def processLineWithFilter (pf : String → Option ℚ) (m : Model) (line0 : String)
    (applyFilter : Bool) : Model :=
  if trimSpace line0 = "" then m
  else processParts pf m applyFilter (splitTab (trimSpace line0))

/-- `processLine` of `main.go`: store the raw line, process it
unfiltered, and additionally filtered while pins are active. -/
def processLine (pf : String → Option ℚ) (m : Model) (line : String) : Model :=
  let m1 := { m with storedLines := m.storedLines ++ [line] }
  let m2 := processLineWithFilter pf m1 line false
  if m2.isFiltered then processLineWithFilter pf m2 line true else m2

/-- `regenerateFilteredData` of `main.go`: reset `filteredData` to an
empty map per existing facet column, then replay all stored lines with
the filter enabled. -/
def regenerateFilteredData (pf : String → Option ℚ) (m : Model) : Model :=
  let m1 := { m with
    filteredData := m.facetsData.map (fun ce => (ce.1, ([] : FacetMap)) : ℕ × FacetMap → ℕ × FacetMap) }
  m1.storedLines.foldl (fun acc line => processLineWithFilter pf acc line true) m1

/-- The column scan of the `enter` handler in the all-facets view: the
first column, in map iteration order, whose facet map contains the
value. -/
def findColumn (t : FacetTable) (v : String) : Option ℕ :=
  match t with
  | [] => none
  | (facetCol, facetMap) :: rest =>
    if (alGet v facetMap).isSome then some facetCol else findColumn rest v

/-- The pin/unpin map updates of the `enter` handler: remove the active
value from both maps, or add it and record the column it is bound to
(the single-column view's index if one is selected, else the first
column of `facetsData`, in map iteration order, containing the value —
no binding is recorded when no column contains it). -/
def togglePinCore (m : Model) : Model :=
  if (alGet m.activeFacet m.pinnedFacets).getD false then
    { m with pinnedFacets := alRemove m.activeFacet m.pinnedFacets,
             pinnedFacetsColumn := alRemove m.activeFacet m.pinnedFacetsColumn }
  else
    if 0 < m.facet then
      { m with pinnedFacets := alSet m.activeFacet true m.pinnedFacets,
               pinnedFacetsColumn :=
                 alSet m.activeFacet m.facet.toNat m.pinnedFacetsColumn }
    else
      match findColumn m.facetsData m.activeFacet with
      | some c =>
        { m with pinnedFacets := alSet m.activeFacet true m.pinnedFacets,
                 pinnedFacetsColumn := alSet m.activeFacet c m.pinnedFacetsColumn }
      | none =>
        { m with pinnedFacets := alSet m.activeFacet true m.pinnedFacets }

/-- The `enter` (pin toggle) branch of `Update` in `main.go`: toggle the
active facet's pin, recompute `isFiltered`, and rebuild the filtered
table when pins remain. -/
def togglePinUpdate (pf : String → Option ℚ) (m : Model) : Model :=
  if m.activeFacet = "" then m
  else
    let m2 := { togglePinCore m with
      isFiltered := !(togglePinCore m).pinnedFacets.isEmpty }
    if m2.isFiltered then regenerateFilteredData pf m2 else m2

/-- The initialisation loop of `resetActiveFacet` and `navigateGrid`
(all-facets view): the first key of the first column, in map iteration
order, whose ranked key list is non-empty. -/
def firstSortedKey : FacetTable → Option String
  | [] => none
  | (_, facetMap) :: rest =>
    match getSortedFacetKeys facetMap with
    | [] => firstSortedKey rest
    | k :: _ => some k

/-- `resetActiveFacet` of `main.go`. -/
def resetActiveFacet (m : Model) : Model :=
  if m.facet = 0 then
    let m1 := { m with activeFacet := "", activeFacetPos := (0, 0) }
    match firstSortedKey (dataSource m) with
    | some k => { m1 with activeFacet := k }
    | none => m1
  else
    let m1 := { m with activeFacetPos := (0, 0) }
    match ftGet m.facet (dataSource m) with
    | some facetData =>
      match getSortedFacetKeys facetData with
      | k :: _ => { m1 with activeFacet := k }
      | [] => m1
    | none => m1

/-- The `0` key handler of `Update`: show all facets, then reset. -/
def key0Update (m : Model) : Model :=
  resetActiveFacet { m with facet := 0, scrollOffset := 0 }

/-- `updatePositionFromActiveFacet` of `main.go`. -/
def updatePositionFromActiveFacet (m : Model) : Model :=
  match alGet m.activeFacet m.facetPositions with
  | some pos => { m with activeFacetPos := pos }
  | none => m

/-- `ensureActiveFacetVisible` of `main.go` (only adjusts the scroll
offset; Go `int` division truncates toward zero, `Int.tdiv`). -/
def ensureActiveFacetVisible (m : Model) : Model :=
  if m.activeFacet = "" then m
  else
    match alGet m.activeFacet m.facetPositions with
    | none => m
    | some _ =>
      let row := m.activeFacetPos.1
      let availableHeight := m.winHeight - 10
      let startRow := Int.tdiv m.scrollOffset 15
      let endRow := Int.tdiv (m.scrollOffset + availableHeight) 15
      if row < startRow then { m with scrollOffset := row * 15 }
      else if endRow ≤ row then
        { m with scrollOffset := (row - endRow + 1) * 15 + 1 }
      else m

/-- The `allKeys` concatenation of `navigateGrid` (all-facets view):
per-column ranked keys appended in map iteration order. -/
def allKeysOf (ds : FacetTable) : List String :=
  ds.foldl (fun acc cf => acc ++ getSortedFacetKeys cf.2) []

/-- The linear scan for `currentIndex`. -/
def idxOf : List String → String → Option ℕ
  | [], _ => none
  | k :: rest, s => if k = s then some 0 else (idxOf rest s).map (· + 1)

/-- The all-facets branch of `navigateGrid`.  `newIndex` clamping:
`currentIndex - 1` on `ℕ` is Go's `if newIndex < 0 { newIndex = 0 }`. -/
def navigateAll (m : Model) (dx dy : ℤ) : Model :=
  let ds := dataSource m
  let m1 :=
    if m.activeFacet = "" then
      match firstSortedKey ds with
      | some k => { m with activeFacet := k }
      | none => m
    else m
  if m1.activeFacet = "" then m1
  else
    match allKeysOf ds with
    | [] => m1
    | k0 :: ks =>
      match idxOf (k0 :: ks) m1.activeFacet with
      | none => updatePositionFromActiveFacet { m1 with activeFacet := k0 }
      | some currentIndex =>
        if 0 < dy then
          let newIndex := if (k0 :: ks).length ≤ currentIndex + 1 then
              (k0 :: ks).length - 1
            else currentIndex + 1
          ensureActiveFacetVisible (updatePositionFromActiveFacet
            { m1 with activeFacet := (k0 :: ks).getD newIndex "" })
        else if dy < 0 then
          ensureActiveFacetVisible (updatePositionFromActiveFacet
            { m1 with activeFacet := (k0 :: ks).getD (currentIndex - 1) "" })
        else m1

/-- The `columns` computation of `navigateGrid` (single-facet view):
`m.gridColumns`, or at least 1 based on the window width when unset. -/
def gridColumnsOf (m : Model) : ℤ :=
  if m.gridColumns < 1 then max 1 (Int.tdiv m.winWidth 60) else m.gridColumns

/-- The single-facet branch of `navigateGrid`.  Row and column of the
current index are computed with non-negative operands, so `ℕ` division
agrees with Go's `int` division. -/
def navigateSingle (m : Model) (dx dy : ℤ) : Model :=
  match ftGet m.facet (dataSource m) with
  | none => m
  | some facetData =>
    match getSortedFacetKeys facetData with
    | [] => m
    | k0 :: ks =>
      match idxOf (k0 :: ks) m.activeFacet with
      | none => { m with activeFacet := k0, activeFacetPos := (0, 0) }
      | some currentIndex =>
        let columns : ℤ := gridColumnsOf m
        let targetRow : ℤ := (currentIndex / columns.toNat : ℕ) + dy
        let targetCol : ℤ := (currentIndex % columns.toNat : ℕ) + dx
        if targetRow < 0 ∨ targetCol < 0 then m
        else
          let targetIndex := targetRow * columns + targetCol
          if 0 ≤ targetIndex ∧ targetIndex < ((k0 :: ks).length : ℤ) then
            ensureActiveFacetVisible
              { m with activeFacet := (k0 :: ks).getD targetIndex.toNat "",
                       activeFacetPos := (targetRow, targetCol) }
          else m

/-- `navigateGrid` of `main.go`. -/
def navigateGrid (m : Model) (dx dy : ℤ) : Model :=
  if m.facet = 0 then navigateAll m dx dy
  else if 0 < m.facet then navigateSingle m dx dy
  else m

/-- A sequence of navigation moves. -/
def navigateSeq (m : Model) : List (ℤ × ℤ) → Model
  | [] => m
  | d :: rest => navigateSeq (navigateGrid m d.1 d.2) rest

theorem processParts_filter_frame (pf : String → Option ℚ) (m : Model)
    (parts : List String) :
    (processParts pf m true parts).facetsData = m.facetsData ∧
      (processParts pf m true parts).stringValues = m.stringValues ∧
      (processParts pf m true parts).totalLogCount = m.totalLogCount ∧
      (processParts pf m true parts).storedLines = m.storedLines := by
  cases parts with
  | nil => exact ⟨rfl, rfl, rfl, rfl⟩
  | cons p0 rest =>
    simp only [processParts]
    by_cases hf : (true && !m.pinnedFacets.isEmpty &&
        !(checkPins m.pinnedFacetsColumn (p0 :: rest) m.pinnedFacets)) = true
    · rw [if_pos hf]
      exact ⟨rfl, rfl, rfl, rfl⟩
    · rw [if_neg hf]
      cases pf p0 with
      | none => exact ⟨rfl, rfl, rfl, rfl⟩
      | some v => exact ⟨rfl, rfl, rfl, rfl⟩

theorem plwf_filter_frame (pf : String → Option ℚ) (m : Model) (line : String) :
    (processLineWithFilter pf m line true).facetsData = m.facetsData ∧
      (processLineWithFilter pf m line true).stringValues = m.stringValues ∧
      (processLineWithFilter pf m line true).totalLogCount = m.totalLogCount ∧
      (processLineWithFilter pf m line true).storedLines = m.storedLines := by
  unfold processLineWithFilter
  by_cases h0 : trimSpace line = ""
  · rw [if_pos h0]
    exact ⟨rfl, rfl, rfl, rfl⟩
  · rw [if_neg h0]
    exact processParts_filter_frame pf m _

theorem fold_filter_frame (pf : String → Option ℚ) (lines : List String) (m : Model) :
    (lines.foldl (fun acc line => processLineWithFilter pf acc line true) m).facetsData =
        m.facetsData ∧
      (lines.foldl (fun acc line => processLineWithFilter pf acc line true) m).stringValues =
        m.stringValues ∧
      (lines.foldl (fun acc line => processLineWithFilter pf acc line true) m).totalLogCount =
        m.totalLogCount ∧
      (lines.foldl (fun acc line => processLineWithFilter pf acc line true) m).storedLines =
        m.storedLines := by
  induction lines generalizing m with
  | nil => exact ⟨rfl, rfl, rfl, rfl⟩
  | cons hd tl ih =>
    obtain ⟨h1, h2, h3, h4⟩ := ih (processLineWithFilter pf m hd true)
    obtain ⟨g1, g2, g3, g4⟩ := plwf_filter_frame pf m hd
    exact ⟨h1.trans g1, h2.trans g2, h3.trans g3, h4.trans g4⟩

theorem regen_frame (pf : String → Option ℚ) (m : Model) :
    (regenerateFilteredData pf m).facetsData = m.facetsData ∧
      (regenerateFilteredData pf m).stringValues = m.stringValues ∧
      (regenerateFilteredData pf m).totalLogCount = m.totalLogCount ∧
      (regenerateFilteredData pf m).storedLines = m.storedLines := by
  unfold regenerateFilteredData
  exact fold_filter_frame pf m.storedLines _

/-- C10: a filtered processing pass — a single line or the full rebuild
of `regenerateFilteredData` — never modifies the full facet table, the
string counts, the global record counter or the stored raw lines; only
`filteredData` can change. -/
theorem filtered_pass_frame (pf : String → Option ℚ) (m : Model) (line : String) :
    ((processLineWithFilter pf m line true).facetsData = m.facetsData ∧
      (processLineWithFilter pf m line true).stringValues = m.stringValues ∧
      (processLineWithFilter pf m line true).totalLogCount = m.totalLogCount ∧
      (processLineWithFilter pf m line true).storedLines = m.storedLines) ∧
    ((regenerateFilteredData pf m).facetsData = m.facetsData ∧
      (regenerateFilteredData pf m).stringValues = m.stringValues ∧
      (regenerateFilteredData pf m).totalLogCount = m.totalLogCount ∧
      (regenerateFilteredData pf m).storedLines = m.storedLines) :=
  ⟨plwf_filter_frame pf m line, regen_frame pf m⟩

/-- The engine fields of the `model` literal constructed in `main`. -/
def initModel : Model :=
  { facetsData := [], storedLines := [], totalLogCount := 0, facet := 0,
    scrollOffset := 0, winWidth := 80, winHeight := 24, stringValues := [],
    activeFacet := "", activeFacetPos := (0, 0), facetPositions := [],
    gridColumns := 0, pinnedFacets := [], pinnedFacetsColumn := [],
    filteredData := [], isFiltered := false }

/-- C3 (amended): a pin toggle that empties the pin set clears
`isFiltered`, so the full table becomes the active data source again,
but `filteredData` is NOT cleared: it keeps its previous (now stale)
contents and is merely no longer consulted — it is only reset on the
next regeneration. -/
theorem unpin_last_pin_amended (pf : String → Option ℚ) (m : Model)
    (hact : m.activeFacet ≠ "")
    (hpin : (alGet m.activeFacet m.pinnedFacets).getD false = true)
    (honly : alRemove m.activeFacet m.pinnedFacets = []) :
    (togglePinUpdate pf m).pinnedFacets = [] ∧
      (togglePinUpdate pf m).isFiltered = false ∧
      (togglePinUpdate pf m).filteredData = m.filteredData ∧
      dataSource (togglePinUpdate pf m) = (togglePinUpdate pf m).facetsData ∧
      (togglePinUpdate pf m).facetsData = m.facetsData := by
  have hcore : togglePinCore m =
      { m with pinnedFacets := alRemove m.activeFacet m.pinnedFacets,
               pinnedFacetsColumn := alRemove m.activeFacet m.pinnedFacetsColumn } := by
    unfold togglePinCore
    rw [if_pos hpin]
  unfold togglePinUpdate
  rw [if_neg hact]
  simp only [hcore, honly, List.isEmpty_nil, Bool.not_true]
  simp [dataSource, honly]

/-- A state with one pin (`red` at column 1) and a populated filtered
table, as produced by pinning `red` on the input line `1\tred`. -/
def mC3ex : Model :=
  { initModel with activeFacet := "red", isFiltered := true,
                   facetsData := [(1, [("red", [1])])],
                   storedLines := ["1\tred"],
                   pinnedFacets := [("red", true)],
                   pinnedFacetsColumn := [("red", 1)],
                   filteredData := [(1, [("red", [1])])] }

/-- C3 counterexample: unpinning the last pin empties the pin set and
deactivates filtering, but the filtered table still holds its old
column/value entries — it is not cleared as the claim states. -/
theorem unpin_last_pin_cex :
    (togglePinUpdate (fun _ => (none : Option ℚ)) mC3ex).pinnedFacets = [] ∧
      (togglePinUpdate (fun _ => (none : Option ℚ)) mC3ex).isFiltered = false ∧
      (togglePinUpdate (fun _ => (none : Option ℚ)) mC3ex).filteredData =
        [(1, [("red", [1])])] := by
  decide

/-- Witness for `unpin_last_pin_amended` at the concrete state
`mC3ex`. -/
theorem unpin_last_pin_witness :
    (mC3ex.activeFacet ≠ "" ∧
      (alGet mC3ex.activeFacet mC3ex.pinnedFacets).getD false = true ∧
      alRemove mC3ex.activeFacet mC3ex.pinnedFacets = []) ∧
    ((togglePinUpdate (fun _ => (none : Option ℚ)) mC3ex).pinnedFacets = [] ∧
      (togglePinUpdate (fun _ => (none : Option ℚ)) mC3ex).isFiltered = false ∧
      (togglePinUpdate (fun _ => (none : Option ℚ)) mC3ex).filteredData =
        mC3ex.filteredData ∧
      dataSource (togglePinUpdate (fun _ => (none : Option ℚ)) mC3ex) =
        (togglePinUpdate (fun _ => (none : Option ℚ)) mC3ex).facetsData ∧
      (togglePinUpdate (fun _ => (none : Option ℚ)) mC3ex).facetsData =
        mC3ex.facetsData) :=
  ⟨⟨by decide, by decide, by decide⟩,
    unpin_last_pin_amended _ mC3ex (by decide) (by decide) (by decide)⟩

/-- A parser that fails on every field (no first field parses as a
float). -/
def pfNone : String → Option ℚ := fun _ => none

theorem processParts_unfiltered_count (pf : String → Option ℚ) (m : Model)
    (p0 : String) (rest : List String) :
    (processParts pf m false (p0 :: rest)).totalLogCount = m.totalLogCount + 1 := by
  cases hpf : pf p0 <;> simp [processParts, hpf]

theorem processParts_unfiltered_err (pf : String → Option ℚ) (m : Model)
    (p0 : String) (rest : List String) (hpf : pf p0 = none) :
    (processParts pf m false (p0 :: rest)).stringValues = bumpString m.stringValues p0 ∧
      (processParts pf m false (p0 :: rest)).facetsData = m.facetsData ∧
      (processParts pf m false (p0 :: rest)).filteredData = m.filteredData := by
  simp [processParts, hpf]

theorem processParts_filter_err (pf : String → Option ℚ) (m : Model)
    (p0 : String) (rest : List String) (hpf : pf p0 = none) :
    processParts pf m true (p0 :: rest) = m := by
  simp only [processParts, hpf]
  split
  · rfl
  · rfl

/-- C8 (amended): a raw line that is non-empty after trimming bumps the
global record counter exactly once, whatever the outcome; if its first
field does not parse as a float, its raw first field's count in
`stringValues` is bumped by one and neither facet table changes.  (A
whitespace-only raw line is a no-op and bumps the counter zero times,
which is why the claim's "every raw input line" fails.) -/
theorem process_line_count_amended (pf : String → Option ℚ) (m : Model)
    (line p0 : String) (rest : List String)
    (h0 : trimSpace line ≠ "") (hsp : splitTab (trimSpace line) = p0 :: rest) :
    (processLine pf m line).totalLogCount = m.totalLogCount + 1 ∧
      (pf p0 = none →
        (processLine pf m line).stringValues = bumpString m.stringValues p0 ∧
        (processLine pf m line).facetsData = m.facetsData ∧
        (processLine pf m line).filteredData = m.filteredData) := by
  simp only [processLine, processLineWithFilter]
  rw [if_neg h0, hsp]
  refine ⟨?_, ?_⟩
  · split
    · rw [(processParts_filter_frame pf _ (p0 :: rest)).2.2.1]
      exact processParts_unfiltered_count pf _ p0 rest
    · exact processParts_unfiltered_count pf _ p0 rest
  · intro hpf
    rw [processParts_filter_err pf _ p0 rest hpf]
    have h := processParts_unfiltered_err pf
      { m with storedLines := m.storedLines ++ [line] } p0 rest hpf
    split
    · exact h
    · exact h

/-- C8 counterexample: processing the empty raw line leaves the global
record counter unchanged (the claim requires an increment for every raw
input line). -/
theorem process_line_count_cex :
    (processLine pfNone initModel "").totalLogCount = 0 ∧
      initModel.totalLogCount = 0 := by
  decide

/-- Witness for `process_line_count_amended` on the line `abc\tred`. -/
theorem process_line_count_witness :
    ((trimSpace "abc\tred" ≠ "") ∧
        splitTab (trimSpace "abc\tred") = "abc" :: ["red"]) ∧
      ((processLine pfNone initModel "abc\tred").totalLogCount =
          initModel.totalLogCount + 1 ∧
        (pfNone "abc" = none →
          (processLine pfNone initModel "abc\tred").stringValues =
            bumpString initModel.stringValues "abc" ∧
          (processLine pfNone initModel "abc\tred").facetsData =
            initModel.facetsData ∧
          (processLine pfNone initModel "abc\tred").filteredData =
            initModel.filteredData)) :=
  ⟨⟨by decide, by decide⟩,
    process_line_count_amended pfNone initModel "abc\tred" "abc" ["red"]
      (by decide) (by decide)⟩

theorem processParts_nav_frame (pf : String → Option ℚ) (m : Model) (af : Bool)
    (parts : List String) :
    (processParts pf m af parts).activeFacet = m.activeFacet ∧
      (processParts pf m af parts).facet = m.facet ∧
      (processParts pf m af parts).pinnedFacets = m.pinnedFacets ∧
      (processParts pf m af parts).pinnedFacetsColumn = m.pinnedFacetsColumn ∧
      (processParts pf m af parts).isFiltered = m.isFiltered := by
  cases parts with
  | nil => exact ⟨rfl, rfl, rfl, rfl, rfl⟩
  | cons p0 rest =>
    cases af with
    | true =>
      simp only [processParts]
      by_cases hf : (true && !m.pinnedFacets.isEmpty &&
          !(checkPins m.pinnedFacetsColumn (p0 :: rest) m.pinnedFacets)) = true
      · rw [if_pos hf]
        exact ⟨rfl, rfl, rfl, rfl, rfl⟩
      · rw [if_neg hf]
        cases pf p0 with
        | none => exact ⟨rfl, rfl, rfl, rfl, rfl⟩
        | some v => exact ⟨rfl, rfl, rfl, rfl, rfl⟩
    | false =>
      simp only [processParts]
      by_cases hf : (false && !m.pinnedFacets.isEmpty &&
          !(checkPins m.pinnedFacetsColumn (p0 :: rest) m.pinnedFacets)) = true
      · rw [if_pos hf]
        exact ⟨rfl, rfl, rfl, rfl, rfl⟩
      · rw [if_neg hf]
        cases pf p0 with
        | none => exact ⟨rfl, rfl, rfl, rfl, rfl⟩
        | some v => exact ⟨rfl, rfl, rfl, rfl, rfl⟩

theorem plwf_nav_frame (pf : String → Option ℚ) (m : Model) (line : String)
    (af : Bool) :
    (processLineWithFilter pf m line af).activeFacet = m.activeFacet ∧
      (processLineWithFilter pf m line af).facet = m.facet ∧
      (processLineWithFilter pf m line af).pinnedFacets = m.pinnedFacets ∧
      (processLineWithFilter pf m line af).pinnedFacetsColumn = m.pinnedFacetsColumn ∧
      (processLineWithFilter pf m line af).isFiltered = m.isFiltered := by
  unfold processLineWithFilter
  split
  · exact ⟨rfl, rfl, rfl, rfl, rfl⟩
  · exact processParts_nav_frame pf m af _

theorem fold_filter_nav_frame (pf : String → Option ℚ) (lines : List String)
    (m : Model) :
    ((lines.foldl (fun acc l => processLineWithFilter pf acc l true) m)).activeFacet =
        m.activeFacet ∧
      ((lines.foldl (fun acc l => processLineWithFilter pf acc l true) m)).facet =
        m.facet ∧
      ((lines.foldl (fun acc l => processLineWithFilter pf acc l true) m)).pinnedFacets =
        m.pinnedFacets ∧
      ((lines.foldl (fun acc l => processLineWithFilter pf acc l true) m)).pinnedFacetsColumn =
        m.pinnedFacetsColumn ∧
      ((lines.foldl (fun acc l => processLineWithFilter pf acc l true) m)).isFiltered =
        m.isFiltered := by
  induction lines generalizing m with
  | nil => exact ⟨rfl, rfl, rfl, rfl, rfl⟩
  | cons hd tl ih =>
    obtain ⟨h1, h2, h3, h4, h5⟩ := ih (processLineWithFilter pf m hd true)
    obtain ⟨g1, g2, g3, g4, g5⟩ := plwf_nav_frame pf m hd true
    exact ⟨h1.trans g1, h2.trans g2, h3.trans g3, h4.trans g4, h5.trans g5⟩

theorem regen_nav_frame (pf : String → Option ℚ) (m : Model) :
    (regenerateFilteredData pf m).activeFacet = m.activeFacet ∧
      (regenerateFilteredData pf m).facet = m.facet ∧
      (regenerateFilteredData pf m).pinnedFacets = m.pinnedFacets ∧
      (regenerateFilteredData pf m).pinnedFacetsColumn = m.pinnedFacetsColumn ∧
      (regenerateFilteredData pf m).isFiltered = m.isFiltered := by
  unfold regenerateFilteredData
  exact fold_filter_nav_frame pf m.storedLines _

theorem togglePinCore_frame (m : Model) :
    (togglePinCore m).activeFacet = m.activeFacet ∧
      (togglePinCore m).facet = m.facet ∧
      (togglePinCore m).facetsData = m.facetsData ∧
      (togglePinCore m).storedLines = m.storedLines := by
  unfold togglePinCore
  split
  · exact ⟨rfl, rfl, rfl, rfl⟩
  · split
    · exact ⟨rfl, rfl, rfl, rfl⟩
    · split
      · exact ⟨rfl, rfl, rfl, rfl⟩
      · exact ⟨rfl, rfl, rfl, rfl⟩

theorem togglePin_activeFacet (pf : String → Option ℚ) (m : Model) :
    (togglePinUpdate pf m).activeFacet = m.activeFacet := by
  unfold togglePinUpdate
  split
  · rfl
  · simp only []
    split
    · exact ((regen_nav_frame pf _).1).trans (togglePinCore_frame m).1
    · exact (togglePinCore_frame m).1

theorem resetActiveFacet_all (m : Model) (hf : m.facet = 0) :
    (resetActiveFacet m).activeFacet = (firstSortedKey (dataSource m)).getD "" := by
  unfold resetActiveFacet
  rw [if_pos hf]
  cases h : firstSortedKey (dataSource m) <;> simp [h]

theorem resetActiveFacet_single (m : Model) (fd : FacetMap) (k : String)
    (ks : List String) (hf : ¬ m.facet = 0)
    (hfd : ftGet m.facet (dataSource m) = some fd)
    (hks : getSortedFacetKeys fd = k :: ks) :
    (resetActiveFacet m).activeFacet = k := by
  unfold resetActiveFacet
  rw [if_neg hf, hfd]
  simp [hks]

/-- C9 (amended): a pin toggle never resets the active selection — it is
preserved verbatim, even when it no longer resolves in the new data
source; switching view mode (the `a`/`d`/`0` handlers, all of which call
`resetActiveFacet`) always resets the selection to the first ranked key
of the now-current view (in the all-facets view, the first key of the
first non-empty column in map iteration order), regardless of whether
the previous selection still resolves. -/
theorem view_switch_reset_amended (pf : String → Option ℚ)
    (mt mk ma ms : Model) (fd : FacetMap) (k : String) (ks : List String)
    (ha : ma.facet = 0) (hs : ¬ ms.facet = 0)
    (hfd : ftGet ms.facet (dataSource ms) = some fd)
    (hks : getSortedFacetKeys fd = k :: ks) :
    (togglePinUpdate pf mt).activeFacet = mt.activeFacet ∧
      (resetActiveFacet ma).activeFacet = (firstSortedKey (dataSource ma)).getD "" ∧
      (resetActiveFacet ms).activeFacet = k ∧
      (key0Update mk).activeFacet =
        (firstSortedKey (dataSource { mk with facet := 0, scrollOffset := 0 })).getD "" :=
  ⟨togglePin_activeFacet pf mt, resetActiveFacet_all ma ha,
    resetActiveFacet_single ms fd k ks hs hfd hks,
    resetActiveFacet_all { mk with facet := 0, scrollOffset := 0 } rfl⟩

/-- A single-column view of column 2 with its key `lo` selected; column
1 holds the key `x`. -/
def mC9ex : Model :=
  { initModel with facet := 2, activeFacet := "lo",
                   facetsData := [(1, [("x", [1])]), (2, [("lo", [2])])] }

/-- C9 counterexample: pressing `0` (switching to the all-facets view)
while the active value `lo` still resolves to a key of the new view's
data source nevertheless resets the selection to the first ranked key
`x`, contradicting "if it still resolves, the selection is
preserved". -/
theorem view_switch_reset_cex :
    mC9ex.activeFacet = "lo" ∧
      "lo" ∈ allKeysOf (dataSource (key0Update mC9ex)) ∧
      (key0Update mC9ex).activeFacet = "x" := by
  decide

/-- A single-column view of column 1 whose only key is `a`. -/
def mC9w : Model :=
  { initModel with facet := 1, activeFacet := "zz",
                   facetsData := [(1, [("a", [1])])] }

/-- Witness for `view_switch_reset_amended` at concrete states. -/
theorem view_switch_reset_witness :
    (initModel.facet = 0 ∧ ¬ mC9w.facet = 0 ∧
        ftGet mC9w.facet (dataSource mC9w) = some [("a", [(1 : ℚ)])] ∧
        getSortedFacetKeys [("a", [(1 : ℚ)])] = "a" :: []) ∧
      ((togglePinUpdate pfNone initModel).activeFacet = initModel.activeFacet ∧
        (resetActiveFacet initModel).activeFacet =
          (firstSortedKey (dataSource initModel)).getD "" ∧
        (resetActiveFacet mC9w).activeFacet = "a" ∧
        (key0Update initModel).activeFacet =
          (firstSortedKey
            (dataSource { initModel with facet := 0, scrollOffset := 0 })).getD "") :=
  ⟨⟨by decide, by decide, by decide, by decide⟩,
    view_switch_reset_amended pfNone initModel initModel initModel mC9w
      [("a", [(1 : ℚ)])] "a" [] (by decide) (by decide) (by decide) (by decide)⟩

theorem alGet_alSet_self {κ α : Type} [DecidableEq κ] (k : κ) (v : α)
    (l : List (κ × α)) : alGet k (alSet k v l) = some v := by
  induction l with
  | nil => simp [alSet, alGet]
  | cons hd tl ih =>
    obtain ⟨k2, v2⟩ := hd
    by_cases h : k = k2
    · simp [alSet, alGet, h]
    · simp [alSet, alGet, h, ih]

theorem findColumn_mem (t : FacetTable) (v : String) (c : ℕ)
    (h : findColumn t v = some c) :
    ∃ fm, (c, fm) ∈ t ∧ (alGet v fm).isSome = true := by
  induction t with
  | nil => cases h
  | cons hd tl ih =>
    obtain ⟨c0, fm0⟩ := hd
    simp only [findColumn] at h
    split at h
    · rename_i hin
      injection h with hc
      subst hc
      exact ⟨fm0, List.mem_cons_self _ _, hin⟩
    · obtain ⟨fm, hmem, hsome⟩ := ih h
      exact ⟨fm, List.mem_cons_of_mem _ hmem, hsome⟩

/-- C7 (amended): pinning a value from the all-facets view binds it to
the FIRST column, in the map's iteration order at pin time, whose facet
map contains the value.  That column always does contain the value, but
when the value occurs in several columns it need not be the lowest such
column index — which column wins depends on the unspecified iteration
order. -/
theorem pin_binding_amended (pf : String → Option ℚ) (m : Model) (c : ℕ)
    (hact : m.activeFacet ≠ "")
    (hnp : (alGet m.activeFacet m.pinnedFacets).getD false = false)
    (hall : ¬ 0 < m.facet)
    (hfc : findColumn m.facetsData m.activeFacet = some c) :
    alGet m.activeFacet (togglePinUpdate pf m).pinnedFacetsColumn = some c ∧
      ∃ fm, (c, fm) ∈ m.facetsData ∧ (alGet m.activeFacet fm).isSome = true := by
  have hnp2 : ¬ ((alGet m.activeFacet m.pinnedFacets).getD false = true) := by
    rw [hnp]
    exact Bool.false_ne_true
  have hcore : (togglePinCore m).pinnedFacetsColumn =
      alSet m.activeFacet c m.pinnedFacetsColumn := by
    unfold togglePinCore
    rw [if_neg hnp2, if_neg hall, hfc]
  refine ⟨?_, findColumn_mem m.facetsData m.activeFacet c hfc⟩
  unfold togglePinUpdate
  rw [if_neg hact]
  simp only []
  split
  · rw [(regen_nav_frame pf _).2.2.2.1]
    show alGet m.activeFacet (togglePinCore m).pinnedFacetsColumn = some c
    rw [hcore]
    exact alGet_alSet_self _ _ _
  · show alGet m.activeFacet (togglePinCore m).pinnedFacetsColumn = some c
    rw [hcore]
    exact alGet_alSet_self _ _ _

/-- A table holding the value `v` in both columns, enumerated with
column 2 first (a legitimate iteration order of the same Go map). -/
def tC7ex : FacetTable := [(2, [("v", [1])]), (1, [("v", [2])])]

/-- The all-facets view with `v` active over `tC7ex`. -/
def mC7ex : Model := { initModel with activeFacet := "v", facetsData := tC7ex }

/-- Refinement comparison, modelled from the spec's words: the lowest
facet-column index of the table whose facet map contains the value. -/
def lowestColumnContaining (t : FacetTable) (v : String) : Option ℕ :=
  (t.filterMap (fun cf => if (alGet v cf.2).isSome then some cf.1 else none)).foldr
    (fun a acc =>
      match acc with
      | none => some a
      | some b => some (min a b)) none

/-- C7 counterexample: over the same abstract map `{1 ↦ {v}, 2 ↦ {v}}`,
the iteration order that lists column 2 first makes the pin scan bind
`v` to column 2, while the lowest column index containing `v` is 1. -/
theorem pin_binding_cex :
    tC7ex.Perm [(1, [("v", [(2 : ℚ)])]), (2, [("v", [1])])] ∧
      findColumn tC7ex "v" = some 2 ∧
      lowestColumnContaining tC7ex "v" = some 1 ∧
      (togglePinUpdate pfNone mC7ex).pinnedFacetsColumn = [("v", 2)] := by
  decide

/-- Witness for `pin_binding_amended` at the state `mC7ex`. -/
theorem pin_binding_witness :
    (mC7ex.activeFacet ≠ "" ∧
        (alGet mC7ex.activeFacet mC7ex.pinnedFacets).getD false = false ∧
        ¬ 0 < mC7ex.facet ∧
        findColumn mC7ex.facetsData mC7ex.activeFacet = some 2) ∧
      (alGet mC7ex.activeFacet
          (togglePinUpdate pfNone mC7ex).pinnedFacetsColumn = some 2 ∧
        ∃ fm, (2, fm) ∈ mC7ex.facetsData ∧
          (alGet mC7ex.activeFacet fm).isSome = true) :=
  ⟨⟨by decide, by decide, by decide, by decide⟩,
    pin_binding_amended pfNone mC7ex 2 (by decide) (by decide) (by decide)
      (by decide)⟩

/-- The sorted column list used by the renderer: `renderMultiFacet`
sorts the facet numbers with `sort.Ints` for a consistent order. -/
def sortedColumns (ds : FacetTable) : List ℕ :=
  List.insertionSort (fun a b : ℕ => a ≤ b) (ds.map Prod.fst)

/-- The order in which `renderMultiFacet` displays (and records in
`activeFacetKeys`) the facet values: ranked keys per column, columns in
ascending index order. -/
def renderKeysOrder (ds : FacetTable) : List String :=
  (sortedColumns ds).foldl
    (fun acc c => acc ++ getSortedFacetKeys ((alGet c ds).getD [])) []

/-- Two iteration orders of the same two-column map. -/
def dsC6asc : FacetTable := [(1, [("a", [1])]), (2, [("b", [2])])]

def dsC6swp : FacetTable := [(2, [("b", [2])]), (1, [("a", [1])])]

/-- C6 (code bug): `navigateGrid` builds its aggregate address list by
iterating the facet-table map directly, so the column order follows the
map's unspecified iteration order.  Over the same abstract map
`{1 ↦ {a}, 2 ↦ {b}}`, the two iteration orders give different address
lists, and the swapped order disagrees with the ascending-column order
that `renderMultiFacet` displays — the list is neither in ascending
column order nor deterministic for a given table state. -/
theorem aggregate_address_order_bug :
    dsC6asc.Perm dsC6swp ∧
      allKeysOf dsC6asc = ["a", "b"] ∧
      allKeysOf dsC6swp = ["b", "a"] ∧
      renderKeysOrder dsC6swp = ["a", "b"] ∧
      allKeysOf dsC6swp ≠ renderKeysOrder dsC6swp := by
  decide

theorem idxOf_some_lt (l : List String) (s : String) (i : ℕ)
    (h : idxOf l s = some i) : i < l.length := by
  induction l generalizing i with
  | nil => cases h
  | cons hd tl ih =>
    simp only [idxOf] at h
    split at h
    · injection h with h0
      subst h0
      simp
    · cases hh : idxOf tl s with
      | none => rw [hh] at h; cases h
      | some j =>
        rw [hh] at h
        injection h with h0
        subst h0
        have := ih j hh
        simp only [List.length_cons]
        omega

theorem idxOf_of_mem (l : List String) (s : String) (h : s ∈ l) :
    ∃ i, idxOf l s = some i := by
  induction l with
  | nil => cases h
  | cons hd tl ih =>
    by_cases he : hd = s
    · exact ⟨0, by simp [idxOf, he]⟩
    · have hs : s ∈ tl := by
        rcases List.mem_cons.mp h with h1 | h1
        · exact absurd h1.symm he
        · exact h1
      obtain ⟨i, hi⟩ := ih hs
      exact ⟨i + 1, by simp [idxOf, he, hi]⟩

theorem getD_mem_of_lt (l : List String) (i : ℕ) (d : String)
    (h : i < l.length) : l.getD i d ∈ l := by
  rw [List.getD_eq_getElem?_getD, List.getElem?_eq_getElem h]
  simp only [Option.getD_some]
  exact List.getElem_mem h

/-- The state components that navigation never touches: both tables,
the filter flag and the displayed column. -/
def NavSame (m m2 : Model) : Prop :=
  m2.facetsData = m.facetsData ∧ m2.filteredData = m.filteredData ∧
    m2.isFiltered = m.isFiltered ∧ m2.facet = m.facet

theorem navSame_refl (m : Model) : NavSame m m := ⟨rfl, rfl, rfl, rfl⟩

theorem navSame_trans {a b c : Model} (h1 : NavSame a b) (h2 : NavSame b c) :
    NavSame a c :=
  ⟨h2.1.trans h1.1, h2.2.1.trans h1.2.1, h2.2.2.1.trans h1.2.2.1,
    h2.2.2.2.trans h1.2.2.2⟩

theorem navSame_dataSource {m m2 : Model} (h : NavSame m m2) :
    dataSource m2 = dataSource m := by
  unfold dataSource
  rw [h.2.2.1, h.1, h.2.1]

theorem upfaf_activeFacet (m : Model) :
    (updatePositionFromActiveFacet m).activeFacet = m.activeFacet := by
  unfold updatePositionFromActiveFacet
  split
  · rfl
  · rfl

theorem upfaf_navSame (m : Model) : NavSame m (updatePositionFromActiveFacet m) := by
  unfold updatePositionFromActiveFacet
  split
  · exact ⟨rfl, rfl, rfl, rfl⟩
  · exact ⟨rfl, rfl, rfl, rfl⟩

theorem eafv_activeFacet (m : Model) :
    (ensureActiveFacetVisible m).activeFacet = m.activeFacet := by
  simp only [ensureActiveFacetVisible]
  split
  · rfl
  · split
    · rfl
    · split
      · rfl
      · split
        · rfl
        · rfl

theorem eafv_navSame (m : Model) : NavSame m (ensureActiveFacetVisible m) := by
  simp only [ensureActiveFacetVisible]
  split
  · exact navSame_refl m
  · split
    · exact navSame_refl m
    · split
      · exact ⟨rfl, rfl, rfl, rfl⟩
      · split
        · exact ⟨rfl, rfl, rfl, rfl⟩
        · exact navSame_refl m

theorem upfaf_facetsData (m : Model) :
    (updatePositionFromActiveFacet m).facetsData = m.facetsData :=
  (upfaf_navSame m).1

theorem upfaf_filteredData (m : Model) :
    (updatePositionFromActiveFacet m).filteredData = m.filteredData :=
  (upfaf_navSame m).2.1

theorem upfaf_isFiltered (m : Model) :
    (updatePositionFromActiveFacet m).isFiltered = m.isFiltered :=
  (upfaf_navSame m).2.2.1

theorem upfaf_facet (m : Model) :
    (updatePositionFromActiveFacet m).facet = m.facet :=
  (upfaf_navSame m).2.2.2

theorem eafv_facetsData (m : Model) :
    (ensureActiveFacetVisible m).facetsData = m.facetsData :=
  (eafv_navSame m).1

theorem eafv_filteredData (m : Model) :
    (ensureActiveFacetVisible m).filteredData = m.filteredData :=
  (eafv_navSame m).2.1

theorem eafv_isFiltered (m : Model) :
    (ensureActiveFacetVisible m).isFiltered = m.isFiltered :=
  (eafv_navSame m).2.2.1

theorem eafv_facet (m : Model) :
    (ensureActiveFacetVisible m).facet = m.facet :=
  (eafv_navSame m).2.2.2

theorem navigateAll_navSame (m : Model) (dx dy : ℤ) :
    NavSame m (navigateAll m dx dy) := by
  unfold NavSame
  simp only [navigateAll]
  repeat' split
  all_goals simp [upfaf_facetsData, upfaf_filteredData, upfaf_isFiltered,
    upfaf_facet, eafv_facetsData, eafv_filteredData, eafv_isFiltered, eafv_facet]

theorem navigateSingle_navSame (m : Model) (dx dy : ℤ) :
    NavSame m (navigateSingle m dx dy) := by
  unfold NavSame
  simp only [navigateSingle]
  repeat' split
  all_goals simp [upfaf_facetsData, upfaf_filteredData, upfaf_isFiltered,
    upfaf_facet, eafv_facetsData, eafv_filteredData, eafv_isFiltered, eafv_facet]

theorem navigateGrid_navSame (m : Model) (dx dy : ℤ) :
    NavSame m (navigateGrid m dx dy) := by
  unfold navigateGrid
  split
  · exact navigateAll_navSame m dx dy
  · split
    · exact navigateSingle_navSame m dx dy
    · exact navSame_refl m

theorem mem_foldl_append (f : (ℕ × FacetMap) → List String) (l : FacetTable)
    (acc : List String) (x : String) :
    (x ∈ l.foldl (fun a cf => a ++ f cf) acc) ↔
      x ∈ acc ∨ ∃ cf ∈ l, x ∈ f cf := by
  induction l generalizing acc with
  | nil => simp
  | cons hd tl ih =>
    simp only [List.foldl_cons]
    rw [ih]
    simp only [List.mem_append, List.mem_cons]
    constructor
    · rintro ((hx | hx) | ⟨cf, hcf, hx⟩)
      · exact Or.inl hx
      · exact Or.inr ⟨hd, Or.inl rfl, hx⟩
      · exact Or.inr ⟨cf, Or.inr hcf, hx⟩
    · rintro (hx | ⟨cf, hcf | hcf, hx⟩)
      · exact Or.inl (Or.inl hx)
      · exact Or.inl (Or.inr (hcf ▸ hx))
      · exact Or.inr ⟨cf, hcf, hx⟩

theorem firstSortedKey_mem (ds : FacetTable) (k : String)
    (h : firstSortedKey ds = some k) : k ∈ allKeysOf ds := by
  unfold allKeysOf
  rw [mem_foldl_append]
  right
  induction ds with
  | nil => cases h
  | cons hd tl ih =>
    obtain ⟨c, fm⟩ := hd
    cases hks : getSortedFacetKeys fm with
    | nil =>
      simp only [firstSortedKey, hks] at h
      obtain ⟨cf, hcf, hx⟩ := ih h
      exact ⟨cf, List.mem_cons_of_mem _ hcf, hx⟩
    | cons k0 ks =>
      simp only [firstSortedKey, hks] at h
      injection h with h0
      subst h0
      exact ⟨(c, fm), List.mem_cons_self _ _, by rw [hks]; exact List.mem_cons_self _ _⟩

theorem mem_of_allKeys_cons {ds : FacetTable} {k0 : String} {ks : List String}
    (hks : allKeysOf ds = k0 :: ks) : k0 ∈ allKeysOf ds := by
  rw [hks]
  exact List.mem_cons_self _ _

theorem getD_mem_allKeys {ds : FacetTable} {k0 : String} {ks : List String}
    {n : ℕ} (hks : allKeysOf ds = k0 :: ks) (hn : n < ks.length + 1) :
    (k0 :: ks).getD n "" ∈ allKeysOf ds := by
  rw [hks]
  exact getD_mem_of_lt _ _ _ (by simpa using hn)

theorem navigateAll_active_mem (m : Model) (dx dy : ℤ)
    (h : m.activeFacet ∈ allKeysOf (dataSource m)) :
    (navigateAll m dx dy).activeFacet ∈ allKeysOf (dataSource m) := by
  simp only [navigateAll]
  repeat' split
  all_goals first
    | exact h
    | exact firstSortedKey_mem _ _ (by assumption)
    | (rw [upfaf_activeFacet]
       first
        | exact firstSortedKey_mem _ _ (by assumption)
        | exact mem_of_allKeys_cons (by assumption))
    | (rw [eafv_activeFacet, upfaf_activeFacet]
       first
        | exact firstSortedKey_mem _ _ (by assumption)
        | (apply getD_mem_allKeys (by assumption)
           simp only [List.length_cons] at *
           omega)
        | (have hi := idxOf_some_lt _ _ _ (by assumption)
           apply getD_mem_allKeys (by assumption)
           simp only [List.length_cons] at *
           omega))

theorem getD_mem_of_eq_cons {l : List String} {k0 : String} {ks : List String}
    {n : ℕ} (hl : l = k0 :: ks) (hn : n < ks.length + 1) :
    (k0 :: ks).getD n "" ∈ l := by
  rw [hl]
  exact getD_mem_of_lt _ _ _ (by simpa using hn)

theorem mem_of_eq_cons {l : List String} {k0 : String} {ks : List String}
    (hl : l = k0 :: ks) : k0 ∈ l := by
  rw [hl]
  exact List.mem_cons_self _ _

theorem navigateSingle_active_mem (m : Model) (dx dy : ℤ) (fd : FacetMap)
    (hfd : ftGet m.facet (dataSource m) = some fd)
    (h : m.activeFacet ∈ getSortedFacetKeys fd) :
    (navigateSingle m dx dy).activeFacet ∈ getSortedFacetKeys fd := by
  simp only [navigateSingle, hfd]
  cases hks : getSortedFacetKeys fd with
  | nil =>
    rw [hks] at h
    cases h
  | cons k0 ks =>
    simp only [hks]
    rw [hks] at h
    cases hidx : idxOf (k0 :: ks) m.activeFacet with
    | none =>
      simp only [hidx]
      exact List.mem_cons_self _ _
    | some i =>
      simp only [hidx]
      repeat' split
      all_goals first
        | exact h
        | (rw [eafv_activeFacet]
           apply getD_mem_of_lt
           simp only [List.length_cons] at *
           omega)

theorem navigateAll_moves (m : Model) (dx dy : ℤ) (i : ℕ)
    (hne : ¬ m.activeFacet = "")
    (hidx : idxOf (allKeysOf (dataSource m)) m.activeFacet = some i) :
    (dy = 0 → navigateAll m dx dy = m) ∧
      (0 < dy → (navigateAll m dx dy).activeFacet =
        (allKeysOf (dataSource m)).getD
          (if (allKeysOf (dataSource m)).length ≤ i + 1 then
            (allKeysOf (dataSource m)).length - 1
          else i + 1) "") ∧
      (dy < 0 → (navigateAll m dx dy).activeFacet =
        (allKeysOf (dataSource m)).getD (i - 1) "") := by
  simp only [navigateAll]
  simp only [if_neg hne]
  cases hks : allKeysOf (dataSource m) with
  | nil =>
    rw [hks] at hidx
    cases hidx
  | cons k0 ks =>
    rw [hks] at hidx
    simp only [hidx]
    refine ⟨?_, ?_, ?_⟩
    · intro hdy
      subst hdy
      simp
    · intro hdy
      rw [if_pos hdy, eafv_activeFacet, upfaf_activeFacet]
    · intro hdy
      rw [if_neg (by omega : ¬ (0 : ℤ) < dy), if_pos hdy,
        eafv_activeFacet, upfaf_activeFacet]

theorem navigateSingle_reject (m : Model) (dx dy : ℤ) (fd : FacetMap) (i : ℕ)
    (hfd : ftGet m.facet (dataSource m) = some fd)
    (hidx : idxOf (getSortedFacetKeys fd) m.activeFacet = some i)
    (hout : ((i / (gridColumnsOf m).toNat : ℕ) : ℤ) + dy < 0 ∨
        ((i % (gridColumnsOf m).toNat : ℕ) : ℤ) + dx < 0 ∨
        ((getSortedFacetKeys fd).length : ℤ) ≤
          (((i / (gridColumnsOf m).toNat : ℕ) : ℤ) + dy) * gridColumnsOf m +
            (((i % (gridColumnsOf m).toNat : ℕ) : ℤ) + dx)) :
    navigateSingle m dx dy = m := by
  simp only [navigateSingle, hfd]
  cases hks : getSortedFacetKeys fd with
  | nil =>
    rw [hks] at hidx
    try cases hidx
  | cons k0 ks =>
    rw [hks] at hidx hout
    simp only [hidx]
    by_cases hb : ((i / (gridColumnsOf m).toNat : ℕ) : ℤ) + dy < 0 ∨
        ((i % (gridColumnsOf m).toNat : ℕ) : ℤ) + dx < 0
    · rw [if_pos hb]
    · rw [if_neg hb]
      rw [if_neg ?_]
      rintro ⟨hge, hlt⟩
      rcases hout with h1 | h2 | h3
      · exact hb (Or.inl h1)
      · exact hb (Or.inr h2)
      · omega

theorem navigateSeq_all_mem (m : Model) (ms : List (ℤ × ℤ))
    (hf : m.facet = 0) (h : m.activeFacet ∈ allKeysOf (dataSource m)) :
    (navigateSeq m ms).activeFacet ∈ allKeysOf (dataSource m) := by
  induction ms generalizing m with
  | nil => exact h
  | cons d rest ih =>
    simp only [navigateSeq]
    have hns := navigateGrid_navSame m d.1 d.2
    have hds := navSame_dataSource hns
    have hg : navigateGrid m d.1 d.2 = navigateAll m d.1 d.2 := by
      unfold navigateGrid
      rw [if_pos hf]
    have h2 : (navigateGrid m d.1 d.2).activeFacet ∈
        allKeysOf (dataSource (navigateGrid m d.1 d.2)) := by
      rw [hds, hg]
      exact navigateAll_active_mem m d.1 d.2 h
    have hf2 : (navigateGrid m d.1 d.2).facet = 0 := by
      rw [hns.2.2.2, hf]
    have hrec := ih (navigateGrid m d.1 d.2) hf2 h2
    rw [hds] at hrec
    exact hrec

theorem navigateSeq_single_mem (m : Model) (ms : List (ℤ × ℤ)) (fd : FacetMap)
    (hf : 0 < m.facet) (hfd : ftGet m.facet (dataSource m) = some fd)
    (h : m.activeFacet ∈ getSortedFacetKeys fd) :
    (navigateSeq m ms).activeFacet ∈ getSortedFacetKeys fd := by
  induction ms generalizing m with
  | nil => exact h
  | cons d rest ih =>
    simp only [navigateSeq]
    have hns := navigateGrid_navSame m d.1 d.2
    have hds := navSame_dataSource hns
    have hg : navigateGrid m d.1 d.2 = navigateSingle m d.1 d.2 := by
      unfold navigateGrid
      rw [if_neg (by omega : ¬ m.facet = 0), if_pos hf]
    have h2 : (navigateGrid m d.1 d.2).activeFacet ∈ getSortedFacetKeys fd := by
      rw [hg]
      exact navigateSingle_active_mem m d.1 d.2 fd hfd h
    have hf2 : 0 < (navigateGrid m d.1 d.2).facet := by
      rw [hns.2.2.2]
      exact hf
    have hfd2 : ftGet (navigateGrid m d.1 d.2).facet
        (dataSource (navigateGrid m d.1 d.2)) = some fd := by
      rw [hns.2.2.2, hds]
      exact hfd
    exact ih (navigateGrid m d.1 d.2) hf2 hfd2 h2

/-- C5 (amended): navigation never leaves valid bounds.  Single-column
view: any sequence of moves keeps a selection that occurs in the ranked
key list inside it (so its index stays in `[0, N-1]`), and a candidate
position with a negative row or column, or a linear index `≥ N`, is
rejected with the state unchanged.  Aggregate view: any sequence of
moves keeps a valid selection inside the address list, and a vertical
move clamps the index to the list bounds (no wraparound).  A horizontal
move leaves the state unchanged PROVIDED the current selection is
non-empty and occurs in the address list; an empty (or stale) selection
is first repaired to the first key by any move, including a purely
horizontal one — which is the one point where the claim's "horizontal
moves never change the selection" fails. -/
theorem navigation_bounds_amended (m : Model) (ms : List (ℤ × ℤ))
    (dx dy : ℤ) (i : ℕ) (fd : FacetMap) :
    (m.facet = 0 → m.activeFacet ∈ allKeysOf (dataSource m) →
      (navigateSeq m ms).activeFacet ∈ allKeysOf (dataSource m)) ∧
    (m.facet = 0 → ¬ m.activeFacet = "" →
      idxOf (allKeysOf (dataSource m)) m.activeFacet = some i →
      ((dy = 0 → navigateGrid m dx dy = m) ∧
        (0 < dy → (navigateGrid m dx dy).activeFacet =
          (allKeysOf (dataSource m)).getD
            (if (allKeysOf (dataSource m)).length ≤ i + 1 then
              (allKeysOf (dataSource m)).length - 1
            else i + 1) "") ∧
        (dy < 0 → (navigateGrid m dx dy).activeFacet =
          (allKeysOf (dataSource m)).getD (i - 1) ""))) ∧
    (0 < m.facet → ftGet m.facet (dataSource m) = some fd →
      m.activeFacet ∈ getSortedFacetKeys fd →
      (navigateSeq m ms).activeFacet ∈ getSortedFacetKeys fd) ∧
    (0 < m.facet → ftGet m.facet (dataSource m) = some fd →
      idxOf (getSortedFacetKeys fd) m.activeFacet = some i →
      (((i / (gridColumnsOf m).toNat : ℕ) : ℤ) + dy < 0 ∨
        ((i % (gridColumnsOf m).toNat : ℕ) : ℤ) + dx < 0 ∨
        ((getSortedFacetKeys fd).length : ℤ) ≤
          (((i / (gridColumnsOf m).toNat : ℕ) : ℤ) + dy) * gridColumnsOf m +
            (((i % (gridColumnsOf m).toNat : ℕ) : ℤ) + dx)) →
      navigateGrid m dx dy = m) := by
  refine ⟨fun hf h => navigateSeq_all_mem m ms hf h, fun hf hne hidx => ?_,
    fun hf hfd h => navigateSeq_single_mem m ms fd hf hfd h,
    fun hf hfd hidx hout => ?_⟩
  · have hg : navigateGrid m dx dy = navigateAll m dx dy := by
      unfold navigateGrid
      rw [if_pos hf]
    rw [hg]
    exact navigateAll_moves m dx dy i hne hidx
  · have hg : navigateGrid m dx dy = navigateSingle m dx dy := by
      unfold navigateGrid
      rw [if_neg (by omega : ¬ m.facet = 0), if_pos hf]
    rw [hg]
    exact navigateSingle_reject m dx dy fd i hfd hidx hout

/-- The aggregate view over one column `{k}` with no selection yet. -/
def mC5ex : Model := { initModel with facetsData := [(1, [("k", [1])])] }

/-- C5 counterexample: in the aggregate view with an empty selection, a
purely horizontal move (`dx = 1, dy = 0`) changes the selection — it is
initialised to the first ranked key — so "horizontal moves never change
the selection" fails as stated. -/
theorem navigation_horizontal_cex :
    mC5ex.facet = 0 ∧ mC5ex.activeFacet = "" ∧
      (navigateGrid mC5ex 1 0).activeFacet = "k" := by
  decide

/-- A single-column view over the one-key column used as witness input. -/
def mC5w : Model :=
  { initModel with facet := 1, activeFacet := "a",
                   facetsData := [(1, [("a", [1])])], gridColumns := 1 }

/-- Witness for `navigation_bounds_amended`: the single-column bounds
conjunct at a concrete state, hypotheses discharged by evaluation. -/
theorem navigation_bounds_witness :
    (0 < mC5w.facet ∧
        ftGet mC5w.facet (dataSource mC5w) = some [("a", [(1 : ℚ)])] ∧
        mC5w.activeFacet ∈ getSortedFacetKeys [("a", [(1 : ℚ)])]) ∧
      (navigateSeq mC5w [(0, 1)]).activeFacet ∈
        getSortedFacetKeys [("a", [(1 : ℚ)])] :=
  ⟨⟨by decide, by decide, by decide⟩,
    (navigation_bounds_amended mC5w [(0, 1)] 0 1 0 [("a", [(1 : ℚ)])]).2.2.1
      (by decide) (by decide) (by decide)⟩

end Histo
